import Mathlib

/-!
A verification development for the record-and-replay engine's core
subsystems: the address-space model (`AddressSpace.cc` / `AddressSpace.h`),
the Task signal machinery (`task.cc`) and the trace stream
(`TraceStream.cc`).  The C++ sources are shallowly embedded: pure C++
functions become Lean functions over explicit state, `std::map`-based
containers become sorted association lists, and fallible or aborting code
returns `Option`.  Machine integers are modelled as `Nat` (none of the
embedded computations overflow their 64-bit C++ counterparts on the inputs
considered).
-/

namespace RR

/-! ## Page arithmetic (util.cc) -/

/-- `page_size()` (util.cc): the system page size, 4096 on x86/x86-64. -/
def page_size : Nat := 4096

/-- `ceil_page_size(sz)` (util.cc): `(sz + page_size() - 1) & ~(page_size() - 1)`,
i.e. `sz` rounded up to the next multiple of the page size. -/
def ceil_page_size (sz : Nat) : Nat := ((sz + page_size - 1) / page_size) * page_size

theorem le_ceil_page_size (sz : Nat) : sz ≤ ceil_page_size sz := by
  unfold ceil_page_size page_size
  have h := Nat.div_add_mod (sz + 4095) 4096
  have h2 := Nat.mod_lt (sz + 4095) (by norm_num : 0 < 4096)
  omega

/-! ## FileId and PseudoDevice (AddressSpace.h) -/

/-- The `PseudoDevice` enumeration (AddressSpace.h). -/
inductive PseudoDevice
  | pseudodevice_none
  | pseudodevice_anonymous
  | pseudodevice_heap
  | pseudodevice_scratch
  | pseudodevice_shared_mmap_file
  | pseudodevice_stack
  | pseudodevice_syscallbuf
  | pseudodevice_vdso
deriving DecidableEq, Repr

/-- `FileId` (AddressSpace.h): a device number (`dev_t`, stored combined as
by `MKDEV`), an inode and a pseudo-device kind. -/
structure FileId where
  device : Nat
  inode : Nat
  psdev : PseudoDevice
deriving DecidableEq, Repr

/-- `FileId::is_real_device()`: `device > NO_DEVICE` with `NO_DEVICE = 0`. -/
def FileId.is_real_device (f : FileId) : Bool := decide (0 < f.device)

/-- `FileId::dev_major()` (AddressSpace.cc): `is_real_device() ? MAJOR(device) : 0`,
with `MAJOR(dev) = dev >> 8` from linux/kdev_t.h. -/
def FileId.dev_major (f : FileId) : Nat := if f.is_real_device then f.device >>> 8 else 0

/-- `FileId::dev_minor()` (AddressSpace.cc): `is_real_device() ? MINOR(device) : 0`,
with `MINOR(dev) = dev & 0xff` from linux/kdev_t.h. -/
def FileId.dev_minor (f : FileId) : Nat := if f.is_real_device then f.device &&& 0xff else 0

/-- `FileId::equivalent_to(o)` (AddressSpace.h lines 89-106). -/
def FileId.equivalent_to (f o : FileId) : Bool :=
  if f.psdev ≠ o.psdev then false
  else if f.psdev = PseudoDevice.pseudodevice_anonymous then true
  else if f.dev_major ≠ o.dev_major then false
  else if f.dev_major ≠ 0 ∧ f.dev_minor ≠ o.dev_minor then false
  else decide (f.inode = o.inode)

/-! ## Mapping and MappableResource (AddressSpace.h) -/

/-- `Mapping::map_flags_mask` (AddressSpace.h):
`MAP_ANONYMOUS | MAP_NORESERVE | MAP_PRIVATE | MAP_SHARED | MAP_STACK`
= `0x20 | 0x4000 | 0x02 | 0x01 | 0x20000`. -/
def map_flags_mask : Nat := 0x24023

/-- `Mapping` (AddressSpace.h): one contiguous virtual range.  Addresses and
the file offset are modelled as `Nat`. -/
structure Mapping where
  start : Nat
  end_ : Nat
  prot : Nat
  flags : Nat
  offset : Nat
deriving DecidableEq, Repr

/-- The `Mapping(start, end, prot, flags, offset)` constructor
(AddressSpace.h): stores `flags & map_flags_mask`. -/
def Mapping.make (start end_ prot flags offset : Nat) : Mapping :=
  ⟨start, end_, prot, flags &&& map_flags_mask, offset⟩

/-- `Mapping::num_bytes()`: `end - start`. -/
def Mapping.num_bytes (m : Mapping) : Nat := m.end_ - m.start

/-- `Mapping::intersects(o)` (AddressSpace.h lines 196-200), exactly as in
the source (the C++ predicate is not symmetric). -/
def Mapping.intersects (m o : Mapping) : Bool :=
  (m.start = o.start ∧ o.end_ = m.end_ : Prop) ∨
    (m.start ≤ o.start ∧ o.start < m.end_ : Prop) ∨
    (m.start < o.end_ ∧ o.end_ ≤ m.end_ : Prop)

/-- `MappableResource` (AddressSpace.h): a `FileId` plus a file-system name. -/
structure MappableResource where
  id : FileId
  fsname : String
deriving DecidableEq, Repr

/-- `MappableResource::operator==`: `id.equivalent_to(o.id)`. -/
def MappableResource.eqv (r o : MappableResource) : Bool := r.id.equivalent_to o.id

/-- One entry of the `MemoryMap` (`std::map<Mapping, MappableResource>`). -/
abbrev MappingResourcePair := Mapping × MappableResource

/-- The `MemoryMap`, modelled as an association list sorted by start
address (the `std::map` iteration order). -/
abbrev MemoryMap := List MappingResourcePair

/-- `MappingComparator::operator()` (AddressSpace.h lines 248-252):
`a.intersects(b) ? false : a.start < b.start`. -/
def mappingLt (a b : Mapping) : Bool := !(a.intersects b) && decide (a.start < b.start)

/-- `PREFIX_FOR_EMPTY_MMAPED_REGIONS` (util.h line 48). -/
def emptyRegionsName : String := "/tmp/rr-emptyfile-"

/-- `is_adjacent_mapping(left, right)` (AddressSpace.cc lines 778-809). -/
def is_adjacent_mapping (left right : MappingResourcePair) : Bool :=
  let mleft := left.1
  let mright := right.1
  if mleft.end_ ≠ mright.start then false
  else if mleft.flags ≠ mright.flags ∨ mleft.prot ≠ mright.prot then false
  else
    let rleft := left.2
    let rright := right.2
    if rright.fsname.startsWith emptyRegionsName then true
    else if ¬ (rleft.eqv rright) then false
    else if rleft.id.is_real_device ∧ mleft.offset + mleft.num_bytes ≠ mright.offset then false
    else true

/-! ## adjust_offset and unmap (AddressSpace.cc) -/

/-- `adjust_offset(r, m, delta)` (AddressSpace.cc lines 616-619):
`r.id.is_real_device() ? m.offset + delta : 0`. -/
def adjust_offset (r : MappableResource) (m : Mapping) (delta : Nat) : Nat :=
  if r.id.is_real_device then m.offset + delta else 0

/-- The `for_each_in_range` loop of `AddressSpace::unmap` (AddressSpace.cc
lines 746-771 and 1103-1142), specialised to the `unmapper` callback and
`ITERATE_DEFAULT`.  `rend` is `region_end`, `last` is `last_unmapped_end`.
Structurally: entries for which `MappingComparator` says
`entry < Mapping(last, rend)` are skipped (this is `mem.lower_bound(rem)`
over the sorted map); the first remaining entry `m` is the `lower_bound`
result; if `rem.end <= m.start` iteration stops; otherwise `m` is erased,
the `[m.start, rem.start)` underflow and `[rem.end, m.end)` overflow pieces
are reinserted (at their sorted positions), and the loop continues with
`last_unmapped_end = m.end`. -/
def unmapLoop (rend : Nat) (last : Nat) (mem : MemoryMap) : MemoryMap :=
  match mem with
  | [] => []
  | e :: rest =>
    if hlr : last < rend then
      if mappingLt e.1 (Mapping.make last rend 0 0 0) then
        e :: unmapLoop rend last rest
      else if rend ≤ e.1.start then
        e :: rest
      else
        if hov : rend < e.1.end_ then
          let tail := unmapLoop rend e.1.end_
            ((Mapping.make rend e.1.end_ e.1.prot e.1.flags
                (adjust_offset e.2 e.1 (rend - e.1.start)), e.2) :: rest)
          if e.1.start < last then
            (Mapping.make e.1.start last e.1.prot e.1.flags e.1.offset, e.2) :: tail
          else tail
        else
          let tail := unmapLoop rend e.1.end_ rest
          if e.1.start < last then
            (Mapping.make e.1.start last e.1.prot e.1.flags e.1.offset, e.2) :: tail
          else tail
    else e :: rest
termination_by mem.length + (if last < rend then 1 else 0)
decreasing_by
  · simp only [List.length_cons]
    omega
  · simp only [List.length_cons]
    have : ¬ (e.1.end_ < rend) := by omega
    simp only [this, if_false, if_pos hlr]
    omega
  · simp only [List.length_cons, if_pos hlr]
    split <;> omega

/-- `AddressSpace::unmap(addr, num_bytes)` (AddressSpace.cc lines 746-771):
`for_each_in_range` first rounds `num_bytes` up to a page multiple and sets
`region_end = addr + num_bytes`, `last_unmapped_end = addr`. -/
def unmap (mem : MemoryMap) (addr num_bytes : Nat) : MemoryMap :=
  unmapLoop (addr + ceil_page_size num_bytes) addr mem

/-! ## coalesce_around (AddressSpace.cc lines 1061-1095) -/

/-- The left-extension loop of `coalesce_around`: `first_kv` starts at `it`
and is moved left while the element before it `is_adjacent_mapping` to the
current first element.  `lrev` is the part of the map before `it`,
innermost (nearest) element first.  Returns the part of `lrev` that is not
merged, together with the final `*first_kv`. -/
def extendLeft (lrev : List MappingResourcePair) (cur : MappingResourcePair) :
    List MappingResourcePair × MappingResourcePair :=
  match lrev with
  | [] => ([], cur)
  | p :: ps => if is_adjacent_mapping p cur then extendLeft ps p else (p :: ps, cur)

/-- The right-extension loop of `coalesce_around`: `last_kv` starts at `it`
and is moved right while it `is_adjacent_mapping` to the element after it.
Returns the final `*last_kv` together with the part of the map after the
merged run. -/
def extendRight (cur : MappingResourcePair) (right : List MappingResourcePair) :
    MappingResourcePair × List MappingResourcePair :=
  match right with
  | [] => (cur, [])
  | n :: ns => if is_adjacent_mapping cur n then extendRight n ns else (cur, n :: ns)

/-- `AddressSpace::coalesce_around(it)` (AddressSpace.cc lines 1061-1095).
The map is given as `left ++ it :: right` with `it` the iterator's element.
If neither scan moved (`first_kv == last_kv`) the map is unchanged;
otherwise the elements from `*first_kv` to `*last_kv` are erased and
replaced by `Mapping(first_kv->first.start, last_kv->first.end, m.prot,
m.flags, first_kv->first.offset)` mapped to `r`, where `(m, r) = *it`. -/
def coalesce_around (left : List MappingResourcePair) (it : MappingResourcePair)
    (right : List MappingResourcePair) : MemoryMap :=
  let el := extendLeft left.reverse it
  let er := extendRight it right
  if el.1.length = left.length ∧ er.2.length = right.length then
    left ++ it :: right
  else
    el.1.reverse ++
      (Mapping.make el.2.1.start er.1.1.end_ it.1.prot it.1.flags el.2.1.offset, it.2) :: er.2

/-! ## Breakpoints (AddressSpace.cc lines 97-150 and 689-709) -/

/-- `TrapType` (AddressSpace.h). -/
inductive TrapType
  | trap_none
  | trap_stepi
  | trap_bkpt_internal
  | trap_bkpt_user
deriving DecidableEq, Repr

/-- `Breakpoint` (AddressSpace.cc lines 97-150): two refcounts and the
saved overwritten byte. -/
structure BreakpointRec where
  internal_count : Nat
  user_count : Nat
  overwritten_data : Nat
deriving DecidableEq, Repr

/-- `Breakpoint::ref(which)`: increments the counter selected by
`counter(which)`; `counter` asserts `which` is `TRAP_BKPT_INTERNAL` or
`TRAP_BKPT_USER` (a fatal assertion, modelled as `none`). -/
def BreakpointRec.refBp (bp : BreakpointRec) : TrapType → Option BreakpointRec
  | TrapType.trap_bkpt_user => some { bp with user_count := bp.user_count + 1 }
  | TrapType.trap_bkpt_internal => some { bp with internal_count := bp.internal_count + 1 }
  | _ => none

/-- `AddressSpace::breakpoint_insn = 0xCC` (AddressSpace.h line 546). -/
def breakpoint_insn : Nat := 0xCC

/-- The breakpoint-relevant state of an `AddressSpace`: the
`BreakpointMap` (a `std::map` keyed by address, modelled as a function
from addresses) plus a log of the bytes written into tracee memory by
`write_mem` (most recent first). -/
structure BpState where
  breakpoints : Nat → Option BreakpointRec
  writes : List (Nat × Nat)

/-- `AddressSpace::set_breakpoint(addr, type)` (AddressSpace.cc lines
689-709).  The fallible read of the byte to be overwritten
(`Task::read_bytes_fallible`) is abstracted by `readByte`: `some b` when
exactly `sizeof(bp->overwritten_data) = 1` byte is read (its value being
`b`), `none` otherwise. -/
def set_breakpoint (st : BpState) (addr : Nat) (type : TrapType) (readByte : Option Nat) :
    Option (Bool × BpState) :=
  match st.breakpoints addr with
  | some bp =>
    (bp.refBp type).map fun bp1 =>
      (true, { st with breakpoints := fun a => if a = addr then some bp1 else st.breakpoints a })
  | none =>
    match readByte with
    | none => some (false, st)
    | some b =>
      let bp : BreakpointRec := ⟨0, 0, b⟩
      let st1 : BpState :=
        { breakpoints := fun a => if a = addr then some bp else st.breakpoints a,
          writes := (addr, breakpoint_insn) :: st.writes }
      (bp.refBp type).map fun bp1 =>
        (true, { st1 with breakpoints := fun a => if a = addr then some bp1 else st.breakpoints a })

/-! ## Watchpoints (AddressSpace.cc lines 152-227, 717-744 and 1038-1059) -/

/-- `EXEC_BIT`, `READ_BIT`, `WRITE_BIT` (AddressSpace.cc lines 152-156). -/
def EXEC_BIT : Nat := 1
def READ_BIT : Nat := 2
def WRITE_BIT : Nat := 4

/-- `WatchType` (AddressSpace.h). -/
inductive WatchType
  | watch_exec
  | watch_write
  | watch_readwrite
deriving DecidableEq, Repr

/-- `access_bits_of(type)` (AddressSpace.cc lines 158-171). -/
def access_bits_of : WatchType → Nat
  | WatchType.watch_exec => EXEC_BIT
  | WatchType.watch_write => WRITE_BIT
  | WatchType.watch_readwrite => READ_BIT ||| WRITE_BIT

/-- `Watchpoint` (AddressSpace.cc lines 177-227): three refcounts. -/
structure WatchpointRec where
  exec_count : Nat
  read_count : Nat
  write_count : Nat
deriving DecidableEq, Repr

/-- `Watchpoint::watch(which)`: each count is bumped when its bit is in
`which`. -/
def WatchpointRec.watch (w : WatchpointRec) (which : Nat) : WatchpointRec :=
  { exec_count := w.exec_count + (if which &&& EXEC_BIT ≠ 0 then 1 else 0),
    read_count := w.read_count + (if which &&& READ_BIT ≠ 0 then 1 else 0),
    write_count := w.write_count + (if which &&& WRITE_BIT ≠ 0 then 1 else 0) }

/-- `Watchpoint::unwatch(which)`: decrements the counts whose bits are in
`which` (each is asserted positive; a failing assertion is `none`) and
returns the remaining total. -/
def WatchpointRec.unwatch (w : WatchpointRec) (which : Nat) : Option (Nat × WatchpointRec) :=
  if which &&& EXEC_BIT ≠ 0 ∧ w.exec_count = 0 then none
  else if which &&& READ_BIT ≠ 0 ∧ w.read_count = 0 then none
  else if which &&& WRITE_BIT ≠ 0 ∧ w.write_count = 0 then none
  else
    let w1 : WatchpointRec :=
      { exec_count := w.exec_count - (if which &&& EXEC_BIT ≠ 0 then 1 else 0),
        read_count := w.read_count - (if which &&& READ_BIT ≠ 0 then 1 else 0),
        write_count := w.write_count - (if which &&& WRITE_BIT ≠ 0 then 1 else 0) }
    some (w1.exec_count + w1.read_count + w1.write_count, w1)

/-- `Watchpoint::watched_bits()`. -/
def WatchpointRec.watched_bits (w : WatchpointRec) : Nat :=
  (if w.exec_count > 0 then EXEC_BIT else 0) ||| (if w.read_count > 0 then READ_BIT else 0) |||
    (if w.write_count > 0 then WRITE_BIT else 0)

/-- `MemoryRange` (AddressSpace.h lines 365-380). -/
structure MemoryRange where
  addr : Nat
  num_bytes : Nat
deriving DecidableEq, Repr

/-- `WatchConfig` (AddressSpace.h lines 386-392). -/
structure WatchConfig where
  addr : Nat
  num_bytes : Nat
  type : WatchType
deriving DecidableEq, Repr

/-- The `WatchpointMap` (`std::map<MemoryRange, shared_ptr<Watchpoint>>`),
modelled as an association list with unique keys (the `std::map` key order
is abstracted; nothing proved here depends on it). -/
abbrev WatchpointMap := List (MemoryRange × WatchpointRec)

/-- Lookup in the `WatchpointMap` (`watchpoints.find(key)`). -/
def wpFind (wps : WatchpointMap) (key : MemoryRange) : Option WatchpointRec :=
  (wps.find? fun e => e.1 = key).map Prod.snd

/-- The debug-register list built by `AddressSpace::allocate_watchpoints`
(AddressSpace.cc lines 1038-1052): one `WatchConfig` per watched access
class of each watchpoint. -/
def watch_configs (wps : WatchpointMap) : List WatchConfig :=
  wps.flatMap fun kv =>
    let watching := kv.2.watched_bits
    (if EXEC_BIT &&& watching ≠ 0 then [WatchConfig.mk kv.1.addr kv.1.num_bytes WatchType.watch_exec] else []) ++
    (if READ_BIT &&& watching = 0 ∧ WRITE_BIT &&& watching ≠ 0 then [WatchConfig.mk kv.1.addr kv.1.num_bytes WatchType.watch_write] else []) ++
    (if READ_BIT &&& watching ≠ 0 then [WatchConfig.mk kv.1.addr kv.1.num_bytes WatchType.watch_readwrite] else [])

/-- `AddressSpace::allocate_watchpoints()` (AddressSpace.cc lines
1038-1059): builds the `WatchConfig` list and programs it into every
task's debug registers; `set_debug_regs` success is abstracted by the
`progOk` parameter (false when some task's hardware debug registers cannot
be programmed). -/
def allocate_watchpoints (progOk : List WatchConfig → Bool) (wps : WatchpointMap) : Bool :=
  progOk (watch_configs wps)

/-- `AddressSpace::set_watchpoint(addr, num_bytes, type)` (AddressSpace.cc
lines 727-739): insert a fresh `Watchpoint` if the range is new, bump the
refcounts for `type`, then return `allocate_watchpoints()`. -/
def set_watchpoint (progOk : List WatchConfig → Bool) (wps : WatchpointMap)
    (addr num_bytes : Nat) (type : WatchType) : Bool × WatchpointMap :=
  let key : MemoryRange := ⟨addr, num_bytes⟩
  let wps1 :=
    match wpFind wps key with
    | none => wps ++ [(key, WatchpointRec.mk 0 0 0 |>.watch (access_bits_of type))]
    | some w => wps.map fun e => if e.1 = key then (key, w.watch (access_bits_of type)) else e
  (allocate_watchpoints progOk wps1, wps1)

/-- `AddressSpace::remove_watchpoint(addr, num_bytes, type)`
(AddressSpace.cc lines 717-725): unwatch; erase the entry when its total
refcount reaches zero; then call `allocate_watchpoints()` (whose return
value is discarded). -/
def remove_watchpoint (wps : WatchpointMap) (addr num_bytes : Nat) (type : WatchType) :
    Option WatchpointMap :=
  let key : MemoryRange := ⟨addr, num_bytes⟩
  match wpFind wps key with
  | none => some wps
  | some w =>
    match w.unwatch (access_bits_of type) with
    | none => none
    | some (total, w1) =>
      if total = 0 then some (wps.filter fun e => e.1 ≠ key)
      else some (wps.map fun e => if e.1 = key then (key, w1) else e)

/-! ## Sighandlers and Task::clone (task.cc lines 817-915 and 1022-1071) -/

/-- `Sighandler` (task.cc lines 817-837): a `kernel_sigaction` plus the
`resethand` flag.  The handler address `SIG_DFL` is 0, `SIG_IGN` is 1. -/
structure Sighandler where
  k_sa_handler : Nat
  sa_flags : Nat
  sa_restorer : Nat
  sa_mask : Nat
  resethand : Bool
deriving DecidableEq, Repr

/-- The default-constructed `Sighandler()`: zeroed `sa`, no `resethand`
(the disposition is `SIG_DFL`). -/
def Sighandler.default : Sighandler := ⟨0, 0, 0, 0, false⟩

/-- `Sighandler::is_user_handler()`: `(uintptr_t)sa.k_sa_handler & ~(uintptr_t)SIG_IGN`
with `SIG_IGN = 1`, i.e. the handler address is neither `SIG_DFL` (0) nor
`SIG_IGN` (1). -/
def Sighandler.is_user_handler (h : Sighandler) : Bool :=
  decide (h.k_sa_handler &&& 0xfffffffffffffffe ≠ 0)

/-- `Sighandlers` (task.cc lines 838-915): the table of `_NSIG` signal
dispositions, modelled as a total function from signal numbers. -/
structure SighandlersT where
  handlers : Nat → Sighandler

/-- `Sighandlers::create()` (task.cc lines 905-907): a default-initialized
table (every entry is `Sighandler()`). -/
def SighandlersT.create : SighandlersT := ⟨fun _ => Sighandler.default⟩

/-- `Sighandlers::clone()` (task.cc lines 841-848): a fresh table holding a
`memcpy` copy of the handlers. -/
def SighandlersT.cloneTable (s : SighandlersT) : SighandlersT := ⟨s.handlers⟩

/-- The `shared_ptr<Sighandlers>` heap: tables addressed by identity, so
that sharing (`t->sighandlers = sighandlers`) and fresh allocation are
distinguishable. -/
structure SighandlersStore where
  tables : Nat → SighandlersT
  nextId : Nat

/-- The sighandlers field of a `Task`: the identity of the shared table it
points at. -/
structure TaskShState where
  sighandlers : Nat
deriving DecidableEq, Repr

/-- The sighandlers part of `Task::clone` (task.cc lines 1031-1036): with
`CLONE_SHARE_SIGHANDLERS` the child points at the parent's table;
otherwise the child gets `Sighandlers::create()`, a freshly
default-initialized table.  Returns the child's sighandlers field and the
updated heap. -/
def Task.clone_sighandlers (parent : TaskShState) (shareSighandlers : Bool)
    (store : SighandlersStore) : TaskShState × SighandlersStore :=
  if shareSighandlers then (⟨parent.sighandlers⟩, store)
  else
    (⟨store.nextId⟩,
      { tables := fun i => if i = store.nextId then SighandlersT.create else store.tables i,
        nextId := store.nextId + 1 })

/-! ## Signal stashing (task.cc lines 1580-1598 and 1955-1980) -/

/-- `SIGTRAP` on Linux/x86. -/
def SIGTRAP : Nat := 5

/-- Modelled from the spec: `stop_sig_from_status(status)` lives in the
missing `task.h`; per the spec's wait-status classification it is the
standard `WSTOPSIG` extraction, `(status >> 8) & 0xff`. -/
def stop_sig_from_status (status : Nat) : Nat := (status >>> 8) &&& 0xff

/-- Modelled from the spec: `ptrace_event_from_status(status)` lives in the
missing `task.h`; per the spec, "the upper bits of the wait status carry
the event code": `(status >> 16) & 0xff`. -/
def ptrace_event_from_status (status : Nat) : Nat := (status >>> 16) &&& 0xff

/-- `Task::pending_sig_from_status(status)` (task.cc lines 1955-1980).
`sig & ~0x80` is `sig &&& 0x7f` since `stop_sig_from_status` yields a
byte. -/
def pending_sig_from_status (status : Nat) : Nat :=
  if status = 0 then 0
  else
    let sig := stop_sig_from_status status
    if sig = SIGTRAP ||| 0x80 then 0
    else if sig = SIGTRAP then (if ptrace_event_from_status status ≠ 0 then 0 else SIGTRAP)
    else sig &&& 0x7f

/-- `siginfo_t`, reduced to the fields the stash machinery copies. -/
structure Siginfo where
  si_signo : Nat
  si_code : Int
  si_fd : Int
deriving DecidableEq, Repr

/-- The signal-stash-relevant state of a `Task` (task.cc): the wait status,
the stashed wait status and siginfo, and the siginfo `PTRACE_GETSIGINFO`
(`get_siginfo`) would currently return. -/
structure TaskSigState where
  wait_status : Nat
  stashed_wait_status : Nat
  stashed_si : Siginfo
  cur_siginfo : Siginfo
deriving DecidableEq, Repr

/-- `Task::pending_sig()`: `pending_sig_from_status(wait_status)` (the
accessor itself is in the missing `task.h`). -/
def pending_sig (t : TaskSigState) : Nat := pending_sig_from_status t.wait_status

/-- Modelled from the spec: `has_stashed_sig()` lives in the missing
`task.h`; `pop_stash_sig` clears `stashed_wait_status` to 0 and `Task`'s
constructor zero-initializes it, so a stashed signal is present iff
`stashed_wait_status != 0`. -/
def has_stashed_sig (t : TaskSigState) : Bool := decide (t.stashed_wait_status ≠ 0)

/-- Modelled from the spec: `force_status(status)` lives in the missing
`task.h`; it overwrites the cached wait status ("popping restores the wait
status"). -/
def force_status (t : TaskSigState) (status : Nat) : TaskSigState :=
  { t with wait_status := status }

/-- `Task::stash_sig()` (task.cc lines 1580-1589).  `assert(pending_sig())`
and the `assert_exec` contract violation ("Tried to stash ... when ... was
already stashed") are modelled as `none`. -/
def stash_sig (t : TaskSigState) : Option TaskSigState :=
  if pending_sig t = 0 then none
  else if has_stashed_sig t then none
  else some { t with stashed_wait_status := t.wait_status, stashed_si := t.cur_siginfo }

/-- `Task::pop_stash_sig()` (task.cc lines 1591-1598):
`assert(has_stashed_sig())`, `force_status(stashed_wait_status)`, clear
`stashed_wait_status`, return `stashed_si`. -/
def pop_stash_sig (t : TaskSigState) : Option (Siginfo × TaskSigState) :=
  if has_stashed_sig t then
    let t1 := force_status t t.stashed_wait_status
    some (t.stashed_si, { t1 with stashed_wait_status := 0 })
  else none

/-! ## /proc/pid/mem access (task.cc lines 2082-2132) -/

/-- The outcome of one `pread64`/`pwrite64` call against the mem fd: the
returned count and the value of `errno` after the call (the code sets
`errno = 0` beforehand). -/
structure PreadResult where
  nread : Int
  err : Nat
deriving DecidableEq, Repr

/-- `Task::read_bytes_fallible(addr, buf_size, buf)` (task.cc lines
2082-2103).  The environment's successive `pread64` outcomes are supplied
as a list (one entry is consumed per attempt).  Returns the value the call
returns together with the number of `reopen_mem_fd()`-and-retry rounds it
performed; `none` models the `assert_exec(buf_size >= 0)` abort or an
exhausted outcome list. -/
def read_bytes_fallible (buf_size : Int) : List PreadResult → Option (Int × Nat)
  | [] => if buf_size < 0 then none else if buf_size = 0 then some (0, 0) else none
  | o :: rest =>
    if buf_size < 0 then none
    else if buf_size = 0 then some (0, 0)
    else if o.nread = 0 ∧ o.err = 0 then
      match read_bytes_fallible buf_size rest with
      | some (res, k) => some (res, k + 1)
      | none => none
    else some (o.nread, 0)

/-- `Task::write_bytes_helper(addr, buf_size, buf)` (task.cc lines
2114-2132), with the `pwrite64` outcomes supplied as a list.  Returns the
number of reopen-and-retry rounds; `none` models `assert_exec` aborts
(negative size, or a final short write) or an exhausted outcome list. -/
def write_bytes_helper (buf_size : Int) : List PreadResult → Option Nat
  | [] => if buf_size < 0 then none else if buf_size = 0 then some 0 else none
  | o :: rest =>
    if buf_size < 0 then none
    else if buf_size = 0 then some 0
    else if o.nread = 0 ∧ o.err = 0 then
      match write_bytes_helper buf_size rest with
      | some k => some (k + 1)
      | none => none
    else if o.nread = buf_size then some 0 else none

/-! ## TraceStream (TraceStream.cc) -/

/-- `TraceFrame`, reduced to the fields `write_frame`/`read_frame`
serialize into `BasicInfo` (TraceStream.cc lines 192-198); the registers
and extra registers written for `HAS_EXEC_INFO` frames are folded into the
opaque `payload`.  (The `TraceFrame` class itself is in the missing
`TraceFrame.h`; its fields are modelled from the spec's frame format.) -/
structure TraceFrameData where
  time : Nat
  tid : Int
  payload : Nat
deriving DecidableEq, Repr

/-- The writer side of the `events` substream: the writer's `global_time`
counter and the sequence of frames written.  `TraceWriter`'s constructor
(TraceStream.cc lines 636-643) starts `global_time` at 1. -/
structure EventsWriter where
  global_time : Nat
  events : List TraceFrameData
deriving DecidableEq, Repr

/-- The freshly constructed `TraceWriter` (TraceStream.cc lines 636-643):
"Somewhat arbitrarily start the global time from 1." -/
def EventsWriter.init : EventsWriter := ⟨1, []⟩

/-- Modelled from the spec: `tick_time()` lives in the missing
`TraceStream.h`; per the spec "the counter is incremented after each
frame" and the reader-side comment "Set the global time at 0, so that when
we tick it for the first event, it matches the initial global time at
recording, 1", it increments `global_time` by one. -/
def tick_time (t : Nat) : Nat := t + 1

/-- `TraceWriter::write_frame(frame)` (TraceStream.cc lines 200-243):
serialize the frame (its `BasicInfo` carries `frame.time()`), then
`tick_time()`. -/
def write_frame (w : EventsWriter) (frame : TraceFrameData) : EventsWriter :=
  { global_time := tick_time w.global_time, events := w.events ++ [frame] }

/-- A recording session writing one frame per payload: each `TraceFrame`
is constructed carrying the writer's current `global_time` (modelled from
the spec: "Every event written to the trace carries `global_time` assigned
by the writer's `tick_time()`"; the frame-constructing callers live
outside the core sources). -/
def write_frames (w : EventsWriter) (payloads : List (Int × Nat)) : EventsWriter :=
  match payloads with
  | [] => w
  | p :: ps => write_frames (write_frame w ⟨w.global_time, p.1, p.2⟩) ps

/-- The reader side of the `events` substream: the reader's `global_time`,
the underlying frame records and the read position.
`TraceReader`'s constructor ends with `global_time = 0` (TraceStream.cc
lines 796-798). -/
structure EventsReader where
  global_time : Nat
  events : List TraceFrameData
  pos : Nat
deriving DecidableEq, Repr

/-- A `TraceReader` freshly opened on a recorded `events` substream
(TraceStream.cc lines 731-799): positioned at the start with
`global_time = 0`. -/
def EventsReader.ofTrace (events : List TraceFrameData) : EventsReader := ⟨0, events, 0⟩

/-- `TraceReader::read_frame()` (TraceStream.cc lines 245-296): read the
next frame record, `tick_time()`, then `assert(time() == frame.time())`
(modelled as `none` on failure, as is reading past the end). -/
def read_frame (r : EventsReader) : Option (TraceFrameData × EventsReader) :=
  match r.events[r.pos]? with
  | none => none
  | some f =>
    let r1 : EventsReader := { r with global_time := tick_time r.global_time, pos := r.pos + 1 }
    if r1.global_time = f.time then some (f, r1) else none

/-- Read `n` frames in sequence with `read_frame`. -/
def read_frames (r : EventsReader) (n : Nat) : Option (List TraceFrameData × EventsReader) :=
  match n with
  | 0 => some ([], r)
  | n + 1 =>
    match read_frame r with
    | none => none
    | some (f, r1) =>
      match read_frames r1 n with
      | none => none
      | some (fs, r2) => some (f :: fs, r2)

/-- A raw-data header as written to the `data_header` substream
(TraceStream.cc line 540): `global_time`, `rec_tid`, address, size. -/
structure RawHeader where
  time : Nat
  rec_tid : Int
  addr : Nat
  size : Nat
deriving DecidableEq, Repr

/-- The writer side of the `data_header` and `data` substreams. -/
structure RawWriter where
  global_time : Nat
  data_header : List RawHeader
  data : List Nat
deriving DecidableEq, Repr

/-- `TraceWriter::write_raw(rec_tid, d, len, addr)` (TraceStream.cc lines
536-542): append the header `(global_time, rec_tid, addr, len)` to
`data_header` and the `len` payload bytes to `data`. -/
def write_raw (w : RawWriter) (rec_tid : Int) (bytes : List Nat) (addr : Nat) : RawWriter :=
  { w with
    data_header := w.data_header ++ [⟨w.global_time, rec_tid, addr, bytes.length⟩],
    data := w.data ++ bytes }

/-- The reader side of the `data_header` and `data` substreams, with one
read position per substream. -/
structure RawReader where
  global_time : Nat
  data_header : List RawHeader
  hpos : Nat
  data : List Nat
  dpos : Nat
deriving DecidableEq, Repr

/-- `TraceReader::RawData` (the out-parameter of
`read_raw_data_for_frame`). -/
structure RawData where
  rec_tid : Int
  addr : Nat
  data : List Nat
deriving DecidableEq, Repr

/-- `TraceReader::read_raw_data()` (TraceStream.cc lines 544-555): read
the next header, `assert(time == global_time)` (modelled as `none`), then
read `size` payload bytes from `data` (`none` when either substream is
exhausted, a fatal truncated-trace read). -/
def read_raw_data (r : RawReader) : Option (RawData × RawReader) :=
  match r.data_header[r.hpos]? with
  | none => none
  | some h =>
    if h.time = r.global_time then
      if r.dpos + h.size ≤ r.data.length then
        some (⟨h.rec_tid, h.addr, (r.data.drop r.dpos).take h.size⟩,
          { r with hpos := r.hpos + 1, dpos := r.dpos + h.size })
      else none
    else none

/-- `TraceReader::read_raw_data_for_frame(frame, d)` (TraceStream.cc lines
557-572): if `data_header` is at end, return false; peek the next header's
time (`save_state`/`restore_state`); `assert(time >= frame.time())`
(modelled as `none`); if it exceeds the frame's time return false without
consuming; otherwise `d = read_raw_data()` and return true. -/
def read_raw_data_for_frame (r : RawReader) (frame_time : Nat) :
    Option ((Bool × Option RawData) × RawReader) :=
  match r.data_header[r.hpos]? with
  | none => some ((false, none), r)
  | some h =>
    if h.time < frame_time then none
    else if frame_time < h.time then some ((false, none), r)
    else
      match read_raw_data r with
      | none => none
      | some (d, r1) => some ((true, some d), r1)

/-! ## Claim C8: resource equivalence -/

/-- C8 counterexample: two resources with the (equal) non-real pseudo-device
kind STACK but different inodes are *not* equivalent, although the claim
says any two resources whose equal pseudo-device kind is not a real device
are equivalent. -/
theorem claim_C8_counterexample :
    (FileId.mk 0 1 PseudoDevice.pseudodevice_stack).psdev
        = (FileId.mk 0 2 PseudoDevice.pseudodevice_stack).psdev ∧
      (FileId.mk 0 1 PseudoDevice.pseudodevice_stack).is_real_device = false ∧
      (FileId.mk 0 2 PseudoDevice.pseudodevice_stack).is_real_device = false ∧
      FileId.equivalent_to (FileId.mk 0 1 PseudoDevice.pseudodevice_stack)
        (FileId.mk 0 2 PseudoDevice.pseudodevice_stack) = false := by
  refine ⟨rfl, rfl, rfl, ?_⟩
  decide

/-- C8 (amended): two `FileId`s are equivalent iff their pseudo-device
kinds match and either the kind is ANONYMOUS (always equivalent), or their
`dev_major()`s match, their `dev_minor()`s match unless `dev_major()` is
zero, and their raw inodes match — the device and inode comparison is
performed for every non-ANONYMOUS kind, not only for real devices. -/
theorem claim_C8_equivalent_to_amended (f o : FileId) :
    f.equivalent_to o = true ↔
      (f.psdev = o.psdev ∧
        (f.psdev = PseudoDevice.pseudodevice_anonymous ∨
          (f.dev_major = o.dev_major ∧ (f.dev_major = 0 ∨ f.dev_minor = o.dev_minor) ∧
            f.inode = o.inode))) := by
  unfold FileId.equivalent_to
  split_ifs with h1 h2 h3 h4
  · simp only [Bool.false_eq_true, false_iff]
    tauto
  · simp only [true_iff]
    exact ⟨not_not.mp h1, Or.inl h2⟩
  · simp only [Bool.false_eq_true, false_iff]
    tauto
  · simp only [Bool.false_eq_true, false_iff]
    tauto
  · push_neg at h1 h3 h4
    simp only [decide_eq_true_eq]
    constructor
    · intro h5
      refine ⟨h1, Or.inr ⟨h3, ?_, h5⟩⟩
      by_cases hz : f.dev_major = 0
      · exact Or.inl hz
      · exact Or.inr (h4 hz)
    · rintro ⟨-, h5 | ⟨-, -, h5⟩⟩
      · exact absurd h5 h2
      · exact h5

/-! ## Claim C4: set_breakpoint failure leaves state unchanged -/

/-- C4: when no breakpoint exists at `addr` and the read of the
to-be-overwritten byte fails, `set_breakpoint` returns false and leaves
the state unchanged: the breakpoint table is untouched (in particular no
breakpoint is registered at `addr` and no refcount exists) and no trap
byte is written into tracee memory. -/
theorem claim_C4_set_breakpoint_failure (st : BpState) (addr : Nat) (type : TrapType)
    (h : st.breakpoints addr = none) :
    set_breakpoint st addr type none = some (false, st) := by
  unfold set_breakpoint
  rw [h]

/-- C4 witness: the failure path evaluated on the empty breakpoint table. -/
theorem claim_C4_witness :
    set_breakpoint ⟨fun _ => none, []⟩ 0x1000 TrapType.trap_bkpt_user none =
      some (false, ⟨fun _ => none, []⟩) :=
  claim_C4_set_breakpoint_failure ⟨fun _ => none, []⟩ 0x1000 TrapType.trap_bkpt_user rfl

/-! ## Claim C10: set_watchpoint failure performs no rollback -/

/-- C10: if `set_watchpoint(addr, len, type)` returns false because the
debug registers of some task cannot be programmed
(`allocate_watchpoints()` = false), the logical watchpoint nevertheless
stays registered with the access-class refcounts for `type` incremented
(shown here for a previously unwatched range, whose entry goes from absent
to present with positive counts), and a matching
`remove_watchpoint(addr, len, type)` is still required — and suffices — to
erase it. -/
theorem claim_C10_set_watchpoint_no_rollback (progOk : List WatchConfig → Bool)
    (wps : WatchpointMap) (addr n : Nat) (type : WatchType)
    (hfresh : wpFind wps ⟨addr, n⟩ = none)
    (hfail : progOk (watch_configs
      (wps ++ [(⟨addr, n⟩, (WatchpointRec.mk 0 0 0).watch (access_bits_of type))])) = false) :
    set_watchpoint progOk wps addr n type =
        (false, wps ++ [(⟨addr, n⟩, (WatchpointRec.mk 0 0 0).watch (access_bits_of type))]) ∧
      wpFind (wps ++ [(⟨addr, n⟩, (WatchpointRec.mk 0 0 0).watch (access_bits_of type))])
          ⟨addr, n⟩ = some ((WatchpointRec.mk 0 0 0).watch (access_bits_of type)) ∧
      (WatchpointRec.mk 0 0 0).watch (access_bits_of type) ≠ WatchpointRec.mk 0 0 0 ∧
      remove_watchpoint
          (wps ++ [(⟨addr, n⟩, (WatchpointRec.mk 0 0 0).watch (access_bits_of type))])
          addr n type = some wps ∧
      wpFind wps ⟨addr, n⟩ = none := by
  have hnone : wps.find? (fun e => e.1 = (⟨addr, n⟩ : MemoryRange)) = none := by
    unfold wpFind at hfresh
    cases hfind : wps.find? (fun e => e.1 = (⟨addr, n⟩ : MemoryRange)) with
    | none => rfl
    | some v => rw [hfind] at hfresh; simp at hfresh
  have hkeys : ∀ e ∈ wps, ¬ (e.1 = (⟨addr, n⟩ : MemoryRange)) := by
    intro e he
    have := List.find?_eq_none.mp hnone e he
    simpa using this
  have hfind2 : wpFind (wps ++ [(⟨addr, n⟩, (WatchpointRec.mk 0 0 0).watch (access_bits_of type))])
      ⟨addr, n⟩ = some ((WatchpointRec.mk 0 0 0).watch (access_bits_of type)) := by
    unfold wpFind
    rw [List.find?_append, hnone]
    simp
  refine ⟨?_, hfind2, ?_, ?_, hfresh⟩
  · simp only [set_watchpoint, allocate_watchpoints, hfresh, hfail]
  · cases type <;> decide
  · have hunwatch : ((WatchpointRec.mk 0 0 0).watch (access_bits_of type)).unwatch
        (access_bits_of type) = some (0, WatchpointRec.mk 0 0 0) := by
      cases type <;> decide
    simp only [remove_watchpoint, hfind2, hunwatch, if_pos]
    congr 1
    rw [List.filter_append]
    have h1 : wps.filter (fun e => decide (e.1 ≠ (⟨addr, n⟩ : MemoryRange))) = wps :=
      List.filter_eq_self.mpr (fun e he => by simpa using hkeys e he)
    have h2 : [((⟨addr, n⟩ : MemoryRange), (WatchpointRec.mk 0 0 0).watch (access_bits_of type))].filter
        (fun e => decide (e.1 ≠ (⟨addr, n⟩ : MemoryRange))) = [] := by simp
    rw [h1, h2, List.append_nil]

/-- C10 witness: the failed `set_watchpoint` / `remove_watchpoint` pair on
a concrete empty watchpoint table with an always-failing register
programmer. -/
theorem claim_C10_witness :
    set_watchpoint (fun _ => false) [] 0x2000 8 WatchType.watch_write =
        (false, [(⟨0x2000, 8⟩, (WatchpointRec.mk 0 0 0).watch (access_bits_of WatchType.watch_write))]) ∧
      remove_watchpoint
          [(⟨0x2000, 8⟩, (WatchpointRec.mk 0 0 0).watch (access_bits_of WatchType.watch_write))]
          0x2000 8 WatchType.watch_write = some [] := by
  have h := claim_C10_set_watchpoint_no_rollback (fun _ => false) [] 0x2000 8
    WatchType.watch_write rfl rfl
  exact ⟨h.1, h.2.2.2.1⟩

/-! ## Claim C6: Task::clone and the Sighandlers table -/

/-- A parent Sighandlers table with a user handler (address `0x4d2`)
installed for signal 10. -/
def c6_parentTable : SighandlersT :=
  ⟨fun s => if s = 10 then ⟨0x4d2, 0, 0, 0, false⟩ else Sighandler.default⟩

/-- A heap holding the parent's table at identity 0. -/
def c6_store : SighandlersStore :=
  ⟨fun i => if i = 0 then c6_parentTable else SighandlersT.create, 1⟩

/-- C6 evaluation at the failing input: cloning *without*
`CLONE_SHARE_SIGHANDLERS` (the fork case) from a parent whose table has a
user handler for signal 10 gives the child a freshly default-initialized
table — the parent's disposition is *not* copied (the code calls
`Sighandlers::create()`, not `sighandlers->clone()`), contradicting the
claim's entry-for-entry copy.  The sharing half of the claim does hold:
with the flag set, parent and child point at the same table. -/
theorem claim_C6_clone_loses_dispositions :
    (Task.clone_sighandlers ⟨0⟩ true c6_store).1.sighandlers = (0 : Nat) ∧
      (Task.clone_sighandlers ⟨0⟩ true c6_store).2.tables 0 = c6_store.tables 0 ∧
      ((c6_store.tables 0).handlers 10).is_user_handler = true ∧
      (((Task.clone_sighandlers ⟨0⟩ false c6_store).2.tables
          (Task.clone_sighandlers ⟨0⟩ false c6_store).1.sighandlers).handlers 10)
        = Sighandler.default ∧
      (((Task.clone_sighandlers ⟨0⟩ false c6_store).2.tables
          (Task.clone_sighandlers ⟨0⟩ false c6_store).1.sighandlers).handlers 10)
        ≠ (c6_store.tables 0).handlers 10 := by
  refine ⟨rfl, rfl, by decide, rfl, ?_⟩
  intro h
  simp only [Task.clone_sighandlers, c6_store, c6_parentTable, SighandlersT.create,
    Sighandler.default] at h
  norm_num at h

/-! ## Claim C7: stash_sig / pop_stash_sig -/

/-- A pending signal means the wait status is nonzero. -/
theorem pending_sig_status_ne_zero (t : TaskSigState) (h : pending_sig t ≠ 0) :
    t.wait_status ≠ 0 := by
  intro hz
  apply h
  unfold pending_sig pending_sig_from_status
  rw [hz]
  simp

/-- C7: for a Task with a pending signal and no already-stashed signal,
`stash_sig()` saves the current wait status and siginfo; a later
`pop_stash_sig()` — after arbitrary intervening changes `w`/`si` to the
wait status and current siginfo — restores the wait status to the stashed
value and returns the stashed siginfo; and calling `stash_sig()` while a
signal is already stashed is a contract violation that aborts. -/
theorem claim_C7_stash_pop (t : TaskSigState) (h1 : pending_sig t ≠ 0)
    (h2 : has_stashed_sig t = false) :
    stash_sig t = some { t with
        stashed_wait_status := t.wait_status,
        stashed_si := t.cur_siginfo } ∧
      (∀ w si, pop_stash_sig { t with
          stashed_wait_status := t.wait_status,
          stashed_si := t.cur_siginfo,
          wait_status := w,
          cur_siginfo := si } =
        some (t.cur_siginfo, { t with
          stashed_wait_status := 0,
          stashed_si := t.cur_siginfo,
          wait_status := t.wait_status,
          cur_siginfo := si })) ∧
      (∀ u : TaskSigState, has_stashed_sig u = true → stash_sig u = none) := by
  have hw : t.wait_status ≠ 0 := pending_sig_status_ne_zero t h1
  refine ⟨?_, ?_, ?_⟩
  · unfold stash_sig
    rw [if_neg h1, h2]
    simp
  · intro w si
    unfold pop_stash_sig has_stashed_sig force_status
    simp only [decide_eq_true_eq]
    rw [if_pos hw]
  · intro u hu
    unfold stash_sig
    rw [hu]
    split <;> simp

/-- C7 witness: a concrete stopped-at-signal-10 task (wait status
`(10 << 8) | 0x7f`), nothing stashed; stash then pop after the wait status
has meanwhile changed to `0x1234`. -/
theorem claim_C7_witness :
    stash_sig ⟨0xa7f, 0, ⟨0, 0, 0⟩, ⟨10, 1, 3⟩⟩ =
        some ⟨0xa7f, 0xa7f, ⟨10, 1, 3⟩, ⟨10, 1, 3⟩⟩ ∧
      pop_stash_sig ⟨0x1234, 0xa7f, ⟨10, 1, 3⟩, ⟨9, 9, 9⟩⟩ =
        some (⟨10, 1, 3⟩, ⟨0xa7f, 0, ⟨10, 1, 3⟩, ⟨9, 9, 9⟩⟩) := by
  have h := claim_C7_stash_pop ⟨0xa7f, 0, ⟨0, 0, 0⟩, ⟨10, 1, 3⟩⟩ (by decide) (by decide)
  exact ⟨h.1, h.2.1 0x1234 ⟨9, 9, 9⟩⟩

/-! ## Claim C5: the mem-fd reopen-and-retry -/

/-- C5 counterexample: when `pread64` keeps returning 0 with errno 0 even
after a reopen, `read_bytes_fallible` reopens and retries *again* — here
two reopen-and-retry rounds happen in one call, so "at most one
reopen-and-retry per call" is false. -/
theorem claim_C5_counterexample :
    read_bytes_fallible 1 [⟨0, 0⟩, ⟨0, 0⟩, ⟨1, 0⟩] = some (1, 2) ∧ ¬ (2 ≤ 1) := by
  constructor
  · rfl
  · decide

/-- C5 (amended): on a zero-return-with-zero-errno outcome the mem fd is
reopened and the operation retried — not exactly once, but repeatedly
until an outcome with a nonzero count or nonzero errno arrives: with
`zs.length` consecutive `(0, errno 0)` outcomes followed by a different
outcome `o`, `read_bytes_fallible` performs exactly `zs.length`
reopen-and-retry rounds and returns `o`'s count, and `write_bytes_helper`
behaves the same way (when the final write is complete). -/
theorem claim_C5_amended (buf_size : Int) (zs rest : List PreadResult) (o : PreadResult)
    (hpos : 0 < buf_size)
    (hz : ∀ z ∈ zs, z.nread = 0 ∧ z.err = 0)
    (ho : ¬ (o.nread = 0 ∧ o.err = 0)) :
    read_bytes_fallible buf_size (zs ++ o :: rest) = some (o.nread, zs.length) ∧
      (o.nread = buf_size → write_bytes_helper buf_size (zs ++ o :: rest) = some zs.length) := by
  induction zs with
  | nil =>
    refine ⟨?_, fun hfull => ?_⟩
    · simp only [List.nil_append, read_bytes_fallible, List.length_nil]
      rw [if_neg (by omega : ¬ buf_size < 0), if_neg (by omega : ¬ buf_size = 0), if_neg ho]
    · simp only [List.nil_append, write_bytes_helper, List.length_nil]
      rw [if_neg (by omega : ¬ buf_size < 0), if_neg (by omega : ¬ buf_size = 0), if_neg ho,
        if_pos hfull]
  | cons z zs ih =>
    have hzz := hz z (List.mem_cons_self z zs)
    have ih2 := ih (fun x hx => hz x (List.mem_cons_of_mem z hx))
    refine ⟨?_, fun hfull => ?_⟩
    · simp only [List.cons_append, read_bytes_fallible, List.length_cons, List.append_eq]
      rw [if_neg (by omega : ¬ buf_size < 0), if_neg (by omega : ¬ buf_size = 0), if_pos hzz,
        ih2.1]
    · simp only [List.cons_append, write_bytes_helper, List.length_cons, List.append_eq]
      rw [if_neg (by omega : ¬ buf_size < 0), if_neg (by omega : ¬ buf_size = 0), if_pos hzz,
        ih2.2 hfull]

/-- C5 witness: one `(0, errno 0)` outcome, then a successful 4-byte read:
exactly one reopen-and-retry round, on both the read and the write path. -/
theorem claim_C5_witness :
    read_bytes_fallible 4 [⟨0, 0⟩, ⟨4, 0⟩] = some (4, 1) ∧
      write_bytes_helper 4 [⟨0, 0⟩, ⟨4, 0⟩] = some 1 := by
  have h := claim_C5_amended 4 [⟨0, 0⟩] [] ⟨4, 0⟩ (by decide) (by decide) (by decide)
  exact ⟨h.1, h.2 rfl⟩

/-! ## Claim C3: global_time is 1, 2, 3, ... -/

/-- The frames a recording session produces from time `t` on: one frame
per payload, stamped with consecutive times. -/
def framesFrom (t : Nat) : List (Int × Nat) → List TraceFrameData
  | [] => []
  | p :: ps => ⟨t, p.1, p.2⟩ :: framesFrom (t + 1) ps

theorem write_frames_eq (payloads : List (Int × Nat)) : ∀ w : EventsWriter,
    write_frames w payloads =
      ⟨w.global_time + payloads.length, w.events ++ framesFrom w.global_time payloads⟩ := by
  induction payloads with
  | nil => intro w; simp [write_frames, framesFrom]
  | cons p ps ih =>
    intro w
    show write_frames (write_frame w ⟨w.global_time, p.1, p.2⟩) ps = _
    rw [ih]
    simp only [write_frame, tick_time, framesFrom, List.length_cons]
    congr 1
    · omega
    · rw [List.append_assoc]
      rfl

theorem framesFrom_map_time (payloads : List (Int × Nat)) : ∀ t : Nat,
    (framesFrom t payloads).map TraceFrameData.time = List.range' t payloads.length := by
  induction payloads with
  | nil => intro t; simp [framesFrom]
  | cons p ps ih =>
    intro t
    simp only [framesFrom, List.map_cons, List.length_cons, List.range'_succ, ih]

theorem read_frames_framesFrom (payloads : List (Int × Nat)) :
    ∀ (t : Nat) (pre : List TraceFrameData),
    read_frames ⟨t, pre ++ framesFrom (t + 1) payloads, pre.length⟩ payloads.length =
      some (framesFrom (t + 1) payloads,
        ⟨t + payloads.length, pre ++ framesFrom (t + 1) payloads,
          pre.length + payloads.length⟩) := by
  induction payloads with
  | nil =>
    intro t pre
    simp [read_frames, framesFrom]
  | cons p ps ih =>
    intro t pre
    have hget : (pre ++ framesFrom (t + 1) (p :: ps))[pre.length]? =
        some ⟨t + 1, p.1, p.2⟩ := by
      rw [List.getElem?_append_right (Nat.le_refl pre.length)]
      simp [framesFrom]
    have hread : read_frame ⟨t, pre ++ framesFrom (t + 1) (p :: ps), pre.length⟩ =
        some (⟨t + 1, p.1, p.2⟩,
          ⟨t + 1, pre ++ framesFrom (t + 1) (p :: ps), pre.length + 1⟩) := by
      unfold read_frame
      rw [hget]
      simp [tick_time]
    have hre : pre ++ framesFrom (t + 1) (p :: ps) =
        (pre ++ [⟨t + 1, p.1, p.2⟩]) ++ framesFrom (t + 1 + 1) ps := by
      show pre ++ framesFrom (t + 1) (p :: ps) = _
      rw [List.append_assoc]
      rfl
    have hlen : (pre ++ [(⟨t + 1, p.1, p.2⟩ : TraceFrameData)]).length = pre.length + 1 := by
      simp
    have ih2 := ih (t + 1) (pre ++ [⟨t + 1, p.1, p.2⟩])
    rw [← hre, hlen] at ih2
    show read_frames _ (ps.length + 1) = _
    unfold read_frames
    simp only [hread, ih2]
    have h1 : t + 1 + ps.length = t + (p :: ps).length := by
      simp only [List.length_cons]
      omega
    have h2 : pre.length + 1 + ps.length = pre.length + (p :: ps).length := by
      simp only [List.length_cons]
      omega
    rw [h1, h2]
    rfl

theorem framesFrom_length (payloads : List (Int × Nat)) : ∀ t,
    (framesFrom t payloads).length = payloads.length := by
  induction payloads with
  | nil => intro t; rfl
  | cons p ps ih => intro t; simp [framesFrom, ih]

/-- C3: the writer's `global_time` starts at 1 and is incremented once
after each frame is written, each frame carrying the `global_time` current
when it was written; consequently a trace of `n` frames carries times
exactly `1, 2, ..., n` with no gaps, reading all `n` frames back succeeds
(each `read_frame` internally checks that the reader's own time equals the
frame's time after ticking), returns exactly the written frames, and
leaves the reader's time counter at the last frame's time `n`. -/
theorem claim_C3_global_time (payloads : List (Int × Nat)) :
    (write_frames EventsWriter.init payloads).global_time = payloads.length + 1 ∧
      (write_frames EventsWriter.init payloads).events.map TraceFrameData.time =
        List.range' 1 payloads.length ∧
      read_frames (EventsReader.ofTrace (write_frames EventsWriter.init payloads).events)
          payloads.length =
        some ((write_frames EventsWriter.init payloads).events,
          ⟨payloads.length, (write_frames EventsWriter.init payloads).events,
            payloads.length⟩) := by
  rw [write_frames_eq payloads EventsWriter.init]
  simp only [EventsWriter.init, List.nil_append]
  refine ⟨by omega, ?_, ?_⟩
  · rw [framesFrom_map_time]
  · have h := read_frames_framesFrom payloads 0 []
    simp only [List.nil_append, List.length_nil, Nat.zero_add] at h
    unfold EventsReader.ofTrace
    rw [h]

/-! ## Claim C9: read_raw_data_for_frame -/

/-- C9: `read_raw_data_for_frame` peeks the next raw-data header; when the
`data_header` substream is at end, or the header's time exceeds the
frame's time, it returns false and consumes nothing (the reader state is
unchanged); when the header was produced by the matching `write_raw` call
(same `global_time` as the frame), it consumes the header and payload,
returns true, and the out-parameter holds exactly the `rec_tid`, address
and bytes passed to that `write_raw`. -/
theorem claim_C9_raw_data_round_trip :
    (∀ (r : RawReader) (ft : Nat), r.data_header[r.hpos]? = none →
        read_raw_data_for_frame r ft = some ((false, none), r)) ∧
      (∀ (r : RawReader) (ft : Nat) (h : RawHeader), r.data_header[r.hpos]? = some h →
        ft < h.time → read_raw_data_for_frame r ft = some ((false, none), r)) ∧
      (∀ (w : RawWriter) (tid : Int) (bytes : List Nat) (addr : Nat),
        read_raw_data_for_frame
            ⟨w.global_time, (write_raw w tid bytes addr).data_header, w.data_header.length,
              (write_raw w tid bytes addr).data, w.data.length⟩ w.global_time =
          some ((true, some ⟨tid, addr, bytes⟩),
            ⟨w.global_time, (write_raw w tid bytes addr).data_header,
              w.data_header.length + 1, (write_raw w tid bytes addr).data,
              w.data.length + bytes.length⟩)) := by
  refine ⟨?_, ?_, ?_⟩
  · intro r ft hend
    unfold read_raw_data_for_frame
    rw [hend]
  · intro r ft h hget hlt
    unfold read_raw_data_for_frame
    simp only [hget]
    rw [if_neg (by omega : ¬ h.time < ft), if_pos hlt]
  · intro w tid bytes addr
    have hget : (write_raw w tid bytes addr).data_header[w.data_header.length]? =
        some ⟨w.global_time, tid, addr, bytes.length⟩ := by
      show (w.data_header ++ [_])[w.data_header.length]? = _
      rw [List.getElem?_concat_length]
    have hlen : w.data.length + bytes.length ≤ (write_raw w tid bytes addr).data.length := by
      show w.data.length + bytes.length ≤ (w.data ++ bytes).length
      simp
    have hbytes : (((write_raw w tid bytes addr).data.drop w.data.length).take
        bytes.length) = bytes := by
      show ((w.data ++ bytes).drop w.data.length).take bytes.length = bytes
      rw [List.drop_left, List.take_length]
    unfold read_raw_data_for_frame read_raw_data
    simp only [hget, Nat.lt_irrefl, if_false, if_pos, hlen, hbytes]

/-! ## Claim C2: unmap -/

theorem mappingLt_rem_iff (a : Mapping) (last rend : Nat) :
    mappingLt a (Mapping.make last rend 0 0 0) = true ↔
      (¬ ((a.start = last ∧ rend = a.end_) ∨ (a.start ≤ last ∧ last < a.end_) ∨
        (a.start < rend ∧ rend ≤ a.end_)) ∧ a.start < last) := by
  simp [mappingLt, Mapping.intersects, Mapping.make]
  omega

/-- A nonempty mapping skipped by the `lower_bound` scan lies entirely
below `last_unmapped_end`. -/
theorem skipped_spec (a : Mapping) (last rend : Nat) (hne : a.start < a.end_)
    (h : mappingLt a (Mapping.make last rend 0 0 0) = true) :
    a.end_ ≤ last ∧ a.start < last := by
  have h2 := (mappingLt_rem_iff a last rend).mp h
  omega

/-- A nonempty mapping found by the `lower_bound` scan that starts below
`region_end` extends beyond `last_unmapped_end`. -/
theorem found_end_gt (a : Mapping) (last rend : Nat) (hne : a.start < a.end_)
    (hlr : last < rend) (hstart : a.start < rend)
    (h : ¬ mappingLt a (Mapping.make last rend 0 0 0) = true) :
    last < a.end_ := by
  rw [mappingLt_rem_iff] at h
  omega

theorem unmapLoop_nil (rend last : Nat) : unmapLoop rend last [] = [] := by
  rw [unmapLoop.eq_def]

theorem unmapLoop_stop (rend last : Nat) (mem : MemoryMap) (h : ¬ last < rend) :
    unmapLoop rend last mem = mem := by
  cases mem with
  | nil => rw [unmapLoop.eq_def]
  | cons e rest =>
    rw [unmapLoop.eq_def]
    dsimp only
    rw [dif_neg h]

theorem unmapLoop_skip (rend last : Nat) (e : MappingResourcePair) (rest : MemoryMap)
    (hlr : last < rend) (hskip : mappingLt e.1 (Mapping.make last rend 0 0 0) = true) :
    unmapLoop rend last (e :: rest) = e :: unmapLoop rend last rest := by
  rw [unmapLoop.eq_def]
  dsimp only
  rw [dif_pos hlr, if_pos hskip]

theorem unmapLoop_out_of_range (rend last : Nat) (e : MappingResourcePair) (rest : MemoryMap)
    (hlr : last < rend) (hskip : ¬ mappingLt e.1 (Mapping.make last rend 0 0 0) = true)
    (hoor : rend ≤ e.1.start) :
    unmapLoop rend last (e :: rest) = e :: rest := by
  rw [unmapLoop.eq_def]
  dsimp only
  rw [dif_pos hlr, if_neg hskip, if_pos hoor]

theorem unmapLoop_process_overflow (rend last : Nat) (e : MappingResourcePair)
    (rest : MemoryMap) (hlr : last < rend)
    (hskip : ¬ mappingLt e.1 (Mapping.make last rend 0 0 0) = true)
    (hoor : ¬ rend ≤ e.1.start) (hov : rend < e.1.end_) :
    unmapLoop rend last (e :: rest) =
      if e.1.start < last then
        (Mapping.make e.1.start last e.1.prot e.1.flags e.1.offset, e.2) ::
          (Mapping.make rend e.1.end_ e.1.prot e.1.flags
            (adjust_offset e.2 e.1 (rend - e.1.start)), e.2) :: rest
      else
        (Mapping.make rend e.1.end_ e.1.prot e.1.flags
          (adjust_offset e.2 e.1 (rend - e.1.start)), e.2) :: rest := by
  have hstop : unmapLoop rend e.1.end_
      ((Mapping.make rend e.1.end_ e.1.prot e.1.flags
        (adjust_offset e.2 e.1 (rend - e.1.start)), e.2) :: rest) =
      (Mapping.make rend e.1.end_ e.1.prot e.1.flags
        (adjust_offset e.2 e.1 (rend - e.1.start)), e.2) :: rest :=
    unmapLoop_stop rend e.1.end_ _ (by omega)
  rw [unmapLoop.eq_def]
  dsimp only
  rw [dif_pos hlr, if_neg hskip, if_neg hoor, dif_pos hov]
  rw [hstop]

theorem unmapLoop_process_within (rend last : Nat) (e : MappingResourcePair)
    (rest : MemoryMap) (hlr : last < rend)
    (hskip : ¬ mappingLt e.1 (Mapping.make last rend 0 0 0) = true)
    (hoor : ¬ rend ≤ e.1.start) (hov : ¬ rend < e.1.end_) :
    unmapLoop rend last (e :: rest) =
      if e.1.start < last then
        (Mapping.make e.1.start last e.1.prot e.1.flags e.1.offset, e.2) ::
          unmapLoop rend e.1.end_ rest
      else unmapLoop rend e.1.end_ rest := by
  rw [unmapLoop.eq_def]
  dsimp only
  rw [dif_pos hlr, if_neg hskip, if_neg hoor, dif_neg hov]

/-- Auxiliary: when every mapping starts at or after `last_unmapped_end`,
everything surviving an `unmapLoop` pass either never overlapped the
region or lies at or beyond `region_end`. -/
theorem unmapLoop_all_ge (rend : Nat) (mem : MemoryMap) : ∀ last : Nat,
    mem.Pairwise (fun a b => a.1.end_ ≤ b.1.start) →
    (∀ e ∈ mem, e.1.start < e.1.end_) →
    (∀ e ∈ mem, last ≤ e.1.start) →
    ∀ e ∈ unmapLoop rend last mem,
      (e ∈ mem ∧ ¬ (e.1.start < rend ∧ last < e.1.end_)) ∨ rend ≤ e.1.start := by
  induction mem with
  | nil =>
    intro last _ _ _ e he
    rw [unmapLoop_nil] at he
    cases he
  | cons e0 rest ih =>
    intro last hsort hne hge e' he'
    have hsort' := List.pairwise_cons.mp hsort
    by_cases hlr : last < rend
    case neg =>
      rw [unmapLoop_stop rend last _ hlr] at he'
      right
      have := hge e' he'
      omega
    case pos =>
      by_cases hskip : mappingLt e0.1 (Mapping.make last rend 0 0 0) = true
      case pos =>
        have hs := skipped_spec e0.1 last rend (hne e0 (List.mem_cons_self e0 rest)) hskip
        have := hge e0 (List.mem_cons_self e0 rest)
        omega
      case neg =>
        by_cases hoor : rend ≤ e0.1.start
        case pos =>
          rw [unmapLoop_out_of_range rend last e0 rest hlr hskip hoor] at he'
          right
          rcases List.mem_cons.mp he' with h | h
          · rw [h]; omega
          · have h1 := hsort'.1 e' h
            have h2 := hne e0 (List.mem_cons_self e0 rest)
            omega
        case neg =>
          have hge0 : ∀ e ∈ rest, e0.1.end_ ≤ e.1.start := hsort'.1
          have hne0 : e0.1.start < e0.1.end_ := hne e0 (List.mem_cons_self e0 rest)
          have hnoPre : ¬ e0.1.start < last := by
            have := hge e0 (List.mem_cons_self e0 rest)
            omega
          by_cases hov : rend < e0.1.end_
          case pos =>
            rw [unmapLoop_process_overflow rend last e0 rest hlr hskip hoor hov,
              if_neg hnoPre] at he'
            right
            rcases List.mem_cons.mp he' with h | h
            · rw [h]
              show rend ≤ rend
              omega
            · have h1 := hge0 e' h
              omega
          case neg =>
            rw [unmapLoop_process_within rend last e0 rest hlr hskip hoor hov,
              if_neg hnoPre] at he'
            have hrest := ih e0.1.end_ hsort'.2 (fun x hx => hne x (List.mem_cons_of_mem e0 hx))
              hge0 e' he'
            rcases hrest with ⟨hmem, hnov⟩ | h
            · left
              refine ⟨List.mem_cons_of_mem e0 hmem, ?_⟩
              have h1 := hge0 e' hmem
              have h2 := hne e' (List.mem_cons_of_mem e0 hmem)
              omega
            · right; exact h

/-- Every element surviving `unmapLoop` is either an original mapping that
did not overlap `[last, rend)`, or lies entirely below `last` (an
underflow piece or an already-passed mapping), or starts at or beyond
`rend` (an overflow piece or an untouched later mapping). -/
theorem unmapLoop_result_spec (rend : Nat) (mem : MemoryMap) : ∀ last : Nat,
    last < rend →
    mem.Pairwise (fun a b => a.1.end_ ≤ b.1.start) →
    (∀ e ∈ mem, e.1.start < e.1.end_) →
    ∀ e ∈ unmapLoop rend last mem,
      (e ∈ mem ∧ ¬ (e.1.start < rend ∧ last < e.1.end_)) ∨
        e.1.end_ ≤ last ∨ rend ≤ e.1.start := by
  induction mem with
  | nil =>
    intro last hlr _ _ e he
    rw [unmapLoop_nil] at he
    cases he
  | cons e0 rest ih =>
    intro last hlr hsort hne e' he'
    have hsort' := List.pairwise_cons.mp hsort
    have hne0 : e0.1.start < e0.1.end_ := hne e0 (List.mem_cons_self e0 rest)
    by_cases hskip : mappingLt e0.1 (Mapping.make last rend 0 0 0) = true
    case pos =>
      rw [unmapLoop_skip rend last e0 rest hlr hskip] at he'
      have hs := skipped_spec e0.1 last rend hne0 hskip
      rcases List.mem_cons.mp he' with h | h
      · rw [h]; right; left; omega
      · have hrest := ih last hlr hsort'.2
          (fun x hx => hne x (List.mem_cons_of_mem e0 hx)) e' h
        rcases hrest with ⟨hmem, hnov⟩ | h2
        · exact Or.inl ⟨List.mem_cons_of_mem e0 hmem, hnov⟩
        · exact Or.inr h2
    case neg =>
      by_cases hoor : rend ≤ e0.1.start
      case pos =>
        rw [unmapLoop_out_of_range rend last e0 rest hlr hskip hoor] at he'
        right; right
        rcases List.mem_cons.mp he' with h | h
        · rw [h]; omega
        · have h1 := hsort'.1 e' h
          omega
      case neg =>
        have hge0 : ∀ e ∈ rest, e0.1.end_ ≤ e.1.start := hsort'.1
        by_cases hov : rend < e0.1.end_
        case pos =>
          rw [unmapLoop_process_overflow rend last e0 rest hlr hskip hoor hov] at he'
          have hsuffix : ∀ x ∈ (Mapping.make rend e0.1.end_ e0.1.prot e0.1.flags
              (adjust_offset e0.2 e0.1 (rend - e0.1.start)), e0.2) :: rest,
              x = e' → ((e' ∈ e0 :: rest ∧ ¬ (e'.1.start < rend ∧ last < e'.1.end_)) ∨
                e'.1.end_ ≤ last ∨ rend ≤ e'.1.start) := by
            intro x hx hxe
            rcases List.mem_cons.mp hx with h | h
            · right; right
              rw [← hxe, h]
              show rend ≤ rend
              omega
            · right; right
              rw [← hxe]
              have h1 := hge0 x h
              omega
          split at he'
          case isTrue hpre =>
            rcases List.mem_cons.mp he' with h | h
            · rw [h]; right; left
              show last ≤ last
              omega
            · exact hsuffix e' h rfl
          case isFalse hpre =>
            exact hsuffix e' he' rfl
        case neg =>
          rw [unmapLoop_process_within rend last e0 rest hlr hskip hoor hov] at he'
          have hinner : ∀ x ∈ unmapLoop rend e0.1.end_ rest,
              (x ∈ e0 :: rest ∧ ¬ (x.1.start < rend ∧ last < x.1.end_)) ∨
                x.1.end_ ≤ last ∨ rend ≤ x.1.start := by
            intro x hx
            have h2 := unmapLoop_all_ge rend rest e0.1.end_ hsort'.2
              (fun y hy => hne y (List.mem_cons_of_mem e0 hy)) hge0 x hx
            rcases h2 with ⟨hmem, hnov⟩ | h3
            · left
              refine ⟨List.mem_cons_of_mem e0 hmem, ?_⟩
              have ha := hge0 x hmem
              have hb := hne x (List.mem_cons_of_mem e0 hmem)
              omega
            · right; right; exact h3
          split at he'
          case isTrue hpre =>
            rcases List.mem_cons.mp he' with h | h
            · rw [h]; right; left
              show last ≤ last
              omega
            · exact hinner e' h
          case isFalse hpre =>
            exact hinner e' he'

/-- The `[m.start, rem.start)` underflow piece of a mapping that overlaps
the region and starts below `last_unmapped_end` is reinserted. -/
theorem unmapLoop_prefix_mem (rend : Nat) (mem : MemoryMap) : ∀ last : Nat,
    last < rend →
    mem.Pairwise (fun a b => a.1.end_ ≤ b.1.start) →
    (∀ e ∈ mem, e.1.start < e.1.end_) →
    ∀ e ∈ mem, e.1.start < rend → last < e.1.end_ → e.1.start < last →
      (Mapping.make e.1.start last e.1.prot e.1.flags e.1.offset, e.2) ∈
        unmapLoop rend last mem := by
  induction mem with
  | nil =>
    intro last _ _ _ e he
    cases he
  | cons e0 rest ih =>
    intro last hlr hsort hne e he hsr hle hsl
    have hsort' := List.pairwise_cons.mp hsort
    have hne0 : e0.1.start < e0.1.end_ := hne e0 (List.mem_cons_self e0 rest)
    by_cases hskip : mappingLt e0.1 (Mapping.make last rend 0 0 0) = true
    case pos =>
      rw [unmapLoop_skip rend last e0 rest hlr hskip]
      have hs := skipped_spec e0.1 last rend hne0 hskip
      rcases List.mem_cons.mp he with h | h
      · rw [h] at hle
        omega
      · exact List.mem_cons_of_mem e0
          (ih last hlr hsort'.2 (fun x hx => hne x (List.mem_cons_of_mem e0 hx)) e h hsr hle hsl)
    case neg =>
      by_cases hoor : rend ≤ e0.1.start
      case pos =>
        exfalso
        rcases List.mem_cons.mp he with h | h
        · rw [h] at hsr; omega
        · have h1 := hsort'.1 e h
          omega
      case neg =>
        have hend0 : last < e0.1.end_ :=
          found_end_gt e0.1 last rend hne0 hlr (by omega) hskip
        have hrest : e ∈ rest → False := by
          intro h
          have h1 := hsort'.1 e h
          omega
        have he0 : e = e0 := by
          rcases List.mem_cons.mp he with h | h
          · exact h
          · exact absurd h (fun hh => hrest hh)
        subst he0
        by_cases hov : rend < e.1.end_
        case pos =>
          rw [unmapLoop_process_overflow rend last e rest hlr hskip hoor hov, if_pos hsl]
          exact List.mem_cons_self _ _
        case neg =>
          rw [unmapLoop_process_within rend last e rest hlr hskip hoor hov, if_pos hsl]
          exact List.mem_cons_self _ _

/-- The `[rem.end, m.end)` overflow piece of a mapping that overlaps the
region and extends past `region_end` is reinserted, with its offset
adjusted via `adjust_offset`. -/
theorem unmapLoop_suffix_mem (rend : Nat) (mem : MemoryMap) : ∀ last : Nat,
    last < rend →
    mem.Pairwise (fun a b => a.1.end_ ≤ b.1.start) →
    (∀ e ∈ mem, e.1.start < e.1.end_) →
    ∀ e ∈ mem, e.1.start < rend → last < e.1.end_ → rend < e.1.end_ →
      (Mapping.make rend e.1.end_ e.1.prot e.1.flags
        (adjust_offset e.2 e.1 (rend - e.1.start)), e.2) ∈ unmapLoop rend last mem := by
  induction mem with
  | nil =>
    intro last _ _ _ e he
    cases he
  | cons e0 rest ih =>
    intro last hlr hsort hne e he hsr hle hre
    have hsort' := List.pairwise_cons.mp hsort
    have hne0 : e0.1.start < e0.1.end_ := hne e0 (List.mem_cons_self e0 rest)
    by_cases hskip : mappingLt e0.1 (Mapping.make last rend 0 0 0) = true
    case pos =>
      rw [unmapLoop_skip rend last e0 rest hlr hskip]
      have hs := skipped_spec e0.1 last rend hne0 hskip
      rcases List.mem_cons.mp he with h | h
      · rw [h] at hle; omega
      · exact List.mem_cons_of_mem e0
          (ih last hlr hsort'.2 (fun x hx => hne x (List.mem_cons_of_mem e0 hx)) e h hsr hle hre)
    case neg =>
      by_cases hoor : rend ≤ e0.1.start
      case pos =>
        exfalso
        rcases List.mem_cons.mp he with h | h
        · rw [h] at hsr; omega
        · have h1 := hsort'.1 e h
          omega
      case neg =>
        rcases List.mem_cons.mp he with he0 | he0
        · subst he0
          have hov : rend < e.1.end_ := hre
          rw [unmapLoop_process_overflow rend last e rest hlr hskip hoor hov]
          split
          · exact List.mem_cons_of_mem _ (List.mem_cons_self _ _)
          · exact List.mem_cons_self _ _
        · have hge0 := hsort'.1 e he0
          by_cases hov : rend < e0.1.end_
          case pos =>
            exfalso
            omega
          case neg =>
            rw [unmapLoop_process_within rend last e0 rest hlr hskip hoor hov]
            have hlr2 : e0.1.end_ < rend := by
              rcases Nat.lt_or_ge e0.1.end_ rend with h | h
              · exact h
              · exfalso
                have : rend ≤ e0.1.end_ := h
                omega
            have hmem2 := ih e0.1.end_ hlr2 hsort'.2
              (fun x hx => hne x (List.mem_cons_of_mem e0 hx)) e he0 hsr (by omega) hre
            split
            · exact List.mem_cons_of_mem _ hmem2
            · exact hmem2

/-- C2: `unmap(addr, len)` erases every stored mapping that intersects
`[addr, addr+len)`; for an erased mapping `m` starting below the region, a
prefix `[m.start, addr)` is reinserted with `m`'s original offset; for an
erased mapping ending above the (page-rounded) region end
`rem.end = addr + ceil_page_size(len)`, a suffix `[rem.end, m.end)` is
reinserted whose offset is `m.offset + (rem.end - m.start)` when the
backing resource is a real device and 0 when it is a pseudo-device; and no
byte of `[addr, addr+len)` remains mapped afterwards.  The hypotheses say
that the map is well formed: sorted, non-overlapping and with nonempty
mappings. -/
theorem claim_C2_unmap (mem : MemoryMap) (addr len : Nat)
    (hlen : 0 < len)
    (hsort : mem.Pairwise (fun a b => a.1.end_ ≤ b.1.start))
    (hne : ∀ e ∈ mem, e.1.start < e.1.end_) :
    (∀ e ∈ mem, e.1.start < addr + len → addr < e.1.end_ →
      e ∉ unmap mem addr len) ∧
      (∀ e ∈ mem, e.1.start < addr + len → addr < e.1.end_ → e.1.start < addr →
        (Mapping.make e.1.start addr e.1.prot e.1.flags e.1.offset, e.2) ∈
          unmap mem addr len) ∧
      (∀ e ∈ mem, e.1.start < addr + len → addr < e.1.end_ →
        addr + ceil_page_size len < e.1.end_ →
        (Mapping.make (addr + ceil_page_size len) e.1.end_ e.1.prot e.1.flags
          (if e.2.id.is_real_device then
            e.1.offset + (addr + ceil_page_size len - e.1.start) else 0), e.2) ∈
          unmap mem addr len) ∧
      (∀ p, addr ≤ p → p < addr + len → ∀ e ∈ unmap mem addr len,
        ¬ (e.1.start ≤ p ∧ p < e.1.end_)) := by
  have hceil : len ≤ ceil_page_size len := le_ceil_page_size len
  have hlr : addr < addr + ceil_page_size len := by omega
  have hd : ∀ p, addr ≤ p → p < addr + len → ∀ e ∈ unmap mem addr len,
      ¬ (e.1.start ≤ p ∧ p < e.1.end_) := by
    intro p hp1 hp2 e he hcon
    have hspec := unmapLoop_result_spec (addr + ceil_page_size len) mem addr hlr hsort hne e he
    rcases hspec with ⟨hmem, hnov⟩ | h | h
    · exact hnov (by omega)
    · omega
    · omega
  refine ⟨?_, ?_, ?_, hd⟩
  · intro e he hsr hle hin
    have hp1 : addr ≤ max e.1.start addr := Nat.le_max_right _ _
    have hp2 : max e.1.start addr < addr + len := by omega
    have hcon : e.1.start ≤ max e.1.start addr ∧ max e.1.start addr < e.1.end_ := by
      have := hne e he
      constructor
      · exact Nat.le_max_left _ _
      · omega
    exact hd (max e.1.start addr) hp1 hp2 e hin hcon
  · intro e he hsr hle hsl
    exact unmapLoop_prefix_mem (addr + ceil_page_size len) mem addr hlr hsort hne e he
      (by omega) hle hsl
  · intro e he hsr hle hre
    have h := unmapLoop_suffix_mem (addr + ceil_page_size len) mem addr hlr hsort hne e he
      (by omega) hle hre
    simpa [adjust_offset] using h

/-- A concrete real-device resource (device `0x801` = major 8 minor 1,
inode 42). -/
def c2_res : MappableResource :=
  ⟨⟨0x801, 42, PseudoDevice.pseudodevice_none⟩, "/lib/x.so"⟩

/-- C2 witness: unmapping `[0x2000, 0x3000)` out of a single file-backed
mapping `[0x1000, 0x5000)` at offset `0x7000` erases it and reinserts the
`[0x1000, 0x2000)` prefix with the original offset and the
`[0x3000, 0x5000)` suffix at offset `0x7000 + 0x2000 = 0x9000`. -/
theorem claim_C2_witness :
    (Mapping.make 0x1000 0x2000 3 2 0x7000, c2_res) ∈
        unmap [(⟨0x1000, 0x5000, 3, 2, 0x7000⟩, c2_res)] 0x2000 0x1000 ∧
      (Mapping.make 0x3000 0x5000 3 2 0x9000, c2_res) ∈
        unmap [(⟨0x1000, 0x5000, 3, 2, 0x7000⟩, c2_res)] 0x2000 0x1000 ∧
      ((⟨0x1000, 0x5000, 3, 2, 0x7000⟩ : Mapping), c2_res) ∉
        unmap [(⟨0x1000, 0x5000, 3, 2, 0x7000⟩, c2_res)] 0x2000 0x1000 := by
  have h := claim_C2_unmap [(⟨0x1000, 0x5000, 3, 2, 0x7000⟩, c2_res)] 0x2000 0x1000
    (by decide) (List.pairwise_singleton _ _)
    (by
      intro e he
      rw [List.mem_singleton] at he
      subst he
      decide)
  refine ⟨?_, ?_, ?_⟩
  · exact h.2.1 _ (List.mem_singleton_self _) (by decide) (by decide) (by decide)
  · exact h.2.2.1 _ (List.mem_singleton_self _) (by decide) (by decide) (by decide)
  · exact h.1 _ (List.mem_singleton_self _) (by decide) (by decide)

/-! ## Claim C1: coalescing -/

/-- The left scan of `coalesce_around` consumes exactly a maximal run of
pairwise-adjacent elements: `run` (in map order, so `lrev`, which is the
reversed left part, equals `run.reverse ++ remaining`), the final
`*first_kv` is the head of `run ++ [cur]`, all consecutive pairs of
`run ++ [cur]` are adjacent, and the element just before the run (if any)
is not adjacent to the run's head. -/
theorem extendLeft_spec (lrev : List MappingResourcePair) : ∀ cur : MappingResourcePair,
    ∃ run : List MappingResourcePair,
      lrev = run.reverse ++ (extendLeft lrev cur).1 ∧
      (extendLeft lrev cur).2 = run.headD cur ∧
      List.Chain' (fun a b => is_adjacent_mapping a b = true) (run ++ [cur]) ∧
      (∀ x ∈ (extendLeft lrev cur).1.head?, is_adjacent_mapping x (run.headD cur) = false) := by
  induction lrev with
  | nil =>
    intro cur
    exact ⟨[], by simp [extendLeft], by simp [extendLeft], by simp, by simp [extendLeft]⟩
  | cons p ps ih =>
    intro cur
    by_cases hadj : is_adjacent_mapping p cur = true
    case pos =>
      have hstep : extendLeft (p :: ps) cur = extendLeft ps p := by
        simp [extendLeft, hadj]
      obtain ⟨run, h1, h2, h3, h4⟩ := ih p
      refine ⟨run ++ [p], ?_, ?_, ?_, ?_⟩
      · rw [hstep, List.reverse_append]
        simp only [List.reverse_cons, List.reverse_nil, List.nil_append, List.cons_append]
        rw [← h1]
      · rw [hstep, h2]
        cases run <;> simp
      · rw [List.append_assoc]
        have hsplit := List.chain'_append.mp h3
        refine List.chain'_append.mpr ⟨hsplit.1, ?_, ?_⟩
        · exact List.chain'_pair.mpr hadj
        · intro x hx y hy
          simp only [List.singleton_append, List.head?_cons, Option.mem_def,
            Option.some.injEq] at hy
          subst hy
          exact hsplit.2.2 x hx p (by simp)
      · intro x hx
        rw [hstep] at hx
        have := h4 x hx
        rw [show (run ++ [p]).headD cur = run.headD p from by cases run <;> simp]
        exact this
    case neg =>
      have hstep : extendLeft (p :: ps) cur = (p :: ps, cur) := by
        simp [extendLeft, hadj]
      refine ⟨[], by simp [hstep], by simp [hstep], by simp, ?_⟩
      intro x hx
      rw [hstep] at hx
      simp only [List.head?_cons, Option.mem_def, Option.some.injEq] at hx
      subst hx
      simp only [List.headD_nil]
      exact Bool.eq_false_iff.mpr hadj

/-- The right scan of `coalesce_around`, symmetrically. -/
theorem extendRight_spec (right : List MappingResourcePair) : ∀ cur : MappingResourcePair,
    ∃ run : List MappingResourcePair,
      right = run ++ (extendRight cur right).2 ∧
      (extendRight cur right).1 = run.getLastD cur ∧
      List.Chain' (fun a b => is_adjacent_mapping a b = true) (cur :: run) ∧
      (∀ x ∈ (extendRight cur right).2.head?,
        is_adjacent_mapping (run.getLastD cur) x = false) := by
  induction right with
  | nil =>
    intro cur
    exact ⟨[], by simp [extendRight], by simp [extendRight], by simp, by simp [extendRight]⟩
  | cons n ns ih =>
    intro cur
    by_cases hadj : is_adjacent_mapping cur n = true
    case pos =>
      have hstep : extendRight cur (n :: ns) = extendRight n ns := by
        simp [extendRight, hadj]
      obtain ⟨run, h1, h2, h3, h4⟩ := ih n
      refine ⟨n :: run, ?_, ?_, ?_, ?_⟩
      · rw [hstep]
        simp only [List.cons_append]
        rw [← h1]
      · rw [hstep, h2, List.getLastD_cons]
      · exact List.chain'_cons.mpr ⟨hadj, h3⟩
      · intro x hx
        rw [hstep] at hx
        rw [List.getLastD_cons]
        exact h4 x hx
    case neg =>
      have hstep : extendRight cur (n :: ns) = (cur, n :: ns) := by
        simp [extendRight, hadj]
      refine ⟨[], by simp [hstep], by simp [hstep], by simp, ?_⟩
      intro x hx
      rw [hstep] at hx
      simp only [List.head?_cons, Option.mem_def, Option.some.injEq] at hx
      subst hx
      simp only [List.getLastD_nil]
      exact Bool.eq_false_iff.mpr hadj

/-- C1: (i) two adjacently stored mappings satisfy the coalescing
predicate `is_adjacent_mapping` exactly when the left one's end equals the
right one's start, their flags and prots are equal, and either the right
resource's file name begins with the placeholder-for-empty-region prefix
(which waives the remaining conditions) or the resources are equivalent
and, when the left resource is a real device, the left offset plus its
byte length equals the right offset; and (ii) `coalesce_around` merges
exactly the maximal run of consecutively-adjacent stored mappings around
the given entry into one covering `Mapping` (keeping the run's first
start and offset and the centre's prot/flags/resource), leaving the map
unchanged when neither neighbour is adjacent — so after any
map/protect/remap operation (all of which end by calling
`coalesce_around`) two adjacently stored mappings are coalesced exactly
when the predicate holds. -/
theorem claim_C1_coalescing :
    (∀ l r : MappingResourcePair,
      is_adjacent_mapping l r = true ↔
        (l.1.end_ = r.1.start ∧ l.1.flags = r.1.flags ∧ l.1.prot = r.1.prot ∧
          (r.2.fsname.startsWith emptyRegionsName = true ∨
            (l.2.id.equivalent_to r.2.id = true ∧
              (l.2.id.is_real_device = true →
                l.1.offset + l.1.num_bytes = r.1.offset))))) ∧
      (∀ (left : List MappingResourcePair) (it : MappingResourcePair)
          (right : List MappingResourcePair),
        ∃ lkeep lrun rrun rkeep : List MappingResourcePair,
          left = lkeep ++ lrun ∧
          right = rrun ++ rkeep ∧
          List.Chain' (fun a b => is_adjacent_mapping a b = true) (lrun ++ it :: rrun) ∧
          (∀ x ∈ lkeep.getLast?, is_adjacent_mapping x (lrun.headD it) = false) ∧
          (∀ x ∈ rkeep.head?, is_adjacent_mapping (rrun.getLastD it) x = false) ∧
          coalesce_around left it right =
            (if lrun = [] ∧ rrun = [] then left ++ it :: right
             else lkeep ++
               (Mapping.make (lrun.headD it).1.start (rrun.getLastD it).1.end_
                 it.1.prot it.1.flags (lrun.headD it).1.offset, it.2) :: rkeep)) := by
  constructor
  · intro l r
    simp only [is_adjacent_mapping]
    split_ifs with h1 h2 h3 h4 h5
    · simp only [false_iff]
      rintro ⟨hc1, -, -, -⟩
      exact h1 hc1
    · simp only [false_iff]
      rintro ⟨-, hc2, hc3, -⟩
      rcases h2 with h | h
      · exact h hc2
      · exact h hc3
    · rcases not_or.mp h2 with ⟨h2a, h2b⟩
      constructor
      · intro _
        exact ⟨not_ne_iff.mp h1, not_ne_iff.mp h2a, not_ne_iff.mp h2b, Or.inl h3⟩
      · intro _
        rfl
    · simp only [false_iff]
      rintro ⟨-, -, -, hc | hc⟩
      · exact h3 hc
      · exact h5.2 (hc.2 h5.1)
    · rcases not_or.mp h2 with ⟨h2a, h2b⟩
      constructor
      · intro _
        refine ⟨not_ne_iff.mp h1, not_ne_iff.mp h2a, not_ne_iff.mp h2b,
          Or.inr ⟨h4, fun hreal => not_not.mp (fun hne => h5 ⟨hreal, hne⟩)⟩⟩
      · intro _
        rfl
    · simp only [false_iff]
      rintro ⟨-, -, -, hc | hc⟩
      · exact h3 hc
      · exact h4 hc.1
  · intro left it right
    obtain ⟨runL, hl1, hl2, hl3, hl4⟩ := extendLeft_spec left.reverse it
    obtain ⟨runR, hr1, hr2, hr3, hr4⟩ := extendRight_spec right it
    have hleft : left = (extendLeft left.reverse it).1.reverse ++ runL := by
      have hc := congrArg List.reverse hl1
      rw [List.reverse_reverse, List.reverse_append, List.reverse_reverse] at hc
      exact hc
    have hlenL : (extendLeft left.reverse it).1.length = left.length ↔ runL = [] := by
      have hc := congrArg List.length hl1
      simp only [List.length_reverse, List.length_append] at hc
      rw [← List.length_eq_zero]
      omega
    have hlenR : (extendRight it right).2.length = right.length ↔ runR = [] := by
      have hc := congrArg List.length hr1
      simp only [List.length_append] at hc
      rw [← List.length_eq_zero]
      omega
    refine ⟨(extendLeft left.reverse it).1.reverse, runL, runR,
      (extendRight it right).2, hleft, hr1, ?_, ?_, ?_, ?_⟩
    · have hsplit := List.chain'_append.mp hl3
      have hcons := List.chain'_cons'.mp hr3
      have hre : runL ++ it :: runR = (runL ++ [it]) ++ runR := by
        rw [List.append_assoc]
        rfl
      rw [hre]
      refine List.chain'_append.mpr ⟨hl3, hcons.2, ?_⟩
      intro x hx y hy
      simp only [List.getLast?_concat, Option.mem_def, Option.some.injEq] at hx
      subst hx
      exact hcons.1 y hy
    · intro x hx
      rw [List.getLast?_reverse] at hx
      exact hl4 x hx
    · exact hr4
    · simp only [coalesce_around]
      by_cases hcase : runL = [] ∧ runR = []
      · rw [if_pos hcase,
          if_pos ⟨hlenL.mpr hcase.1, hlenR.mpr hcase.2⟩]
      · rw [if_neg hcase,
          if_neg (by
            intro hc
            exact hcase ⟨hlenL.mp hc.1, hlenR.mp hc.2⟩)]
        rw [hl2, hr2]

/-- An anonymous pseudo-device resource for the C1 witness. -/
def c1_anonRes : MappableResource := ⟨⟨0, 7, PseudoDevice.pseudodevice_anonymous⟩, ""⟩

/-- C1 witness: the coalescing predicate, via the characterisation, holds
for two concrete adjacent anonymous mappings with equal prot and flags. -/
theorem claim_C1_witness :
    is_adjacent_mapping (⟨0x1000, 0x2000, 3, 2, 0⟩, c1_anonRes)
      (⟨0x2000, 0x3000, 3, 2, 0⟩, c1_anonRes) = true :=
  (claim_C1_coalescing.1 _ _).mpr ⟨rfl, rfl, rfl, Or.inr ⟨by decide, by decide⟩⟩

/-- C9 witness: a concrete matching `write_raw`/`read_raw_data_for_frame`
pair at time 7, and a concrete future header (time 8 > frame time 7) that
is returned as false with the reader untouched. -/
theorem claim_C9_witness :
    read_raw_data_for_frame ⟨7, [⟨7, 3, 100, 2⟩], 0, [9, 8], 0⟩ 7 =
        some ((true, some ⟨3, 100, [9, 8]⟩), ⟨7, [⟨7, 3, 100, 2⟩], 1, [9, 8], 2⟩) ∧
      read_raw_data_for_frame ⟨7, [⟨8, 3, 100, 2⟩], 0, [9, 8], 0⟩ 7 =
        some ((false, none), ⟨7, [⟨8, 3, 100, 2⟩], 0, [9, 8], 0⟩) :=
  ⟨claim_C9_raw_data_round_trip.2.2 ⟨7, [], []⟩ 3 [9, 8] 100,
    claim_C9_raw_data_round_trip.2.1 ⟨7, [⟨8, 3, 100, 2⟩], 0, [9, 8], 0⟩ 7
      ⟨8, 3, 100, 2⟩ rfl (by decide)⟩

end RR
